import Mathlib

/-!
Verification of the failure-lambda chaos-engineering proxy (Rust sources under
`src/layer/proxy/src/`) against its natural-language specification.

The development shallow-embeds the relevant Rust code:

* JSON values (`serde_json::Value`) become the inductive `Json`; JSON numbers
  are modelled exactly as rationals (`Rat`), which is faithful for every
  comparison the code performs.  A JSON object is the association list of its
  entries; parsed objects have no duplicate keys, matching `serde_json::Map`.
* External library calls are abstracted into explicit parameters: the result
  of `serde_json::from_str` is passed in as an `Option Json`, regex
  compilation success becomes a predicate `regexOk : String → Bool`, regex
  matching becomes `regexMatch : String → String → Bool`, and each RNG sample
  becomes an explicit argument.
* Strings are Lean `String`s; Rust byte indices are recovered from
  `Char.utf8Size`.

Every definition keeps its source name and mirrors the source control flow.
-/

namespace FailureLambda

/-- JSON values, modelling `serde_json::Value`.  Numbers are exact rationals;
objects are association lists of entries in order, with unique keys whenever
the value was produced by the serde parser. -/
inductive Json where
  | null : Json
  | bool (b : Bool) : Json
  | num (q : Rat) : Json
  | str (s : String) : Json
  | arr (elems : List Json) : Json
  | obj (entries : List (String × Json)) : Json
deriving Repr

/-- Key lookup in a JSON object's entry list, modelling `Map::get`. -/
def Json.lookupKey (entries : List (String × Json)) (k : String) : Option Json :=
  List.lookup k entries

/-- Replace the value stored under key `k` (first occurrence), modelling
`serde_json::Map::insert` on a key that is already present. -/
def Json.setKey (entries : List (String × Json)) (k : String) (v : Json) :
    List (String × Json) :=
  match entries with
  | [] => []
  | (k', v') :: rest =>
    if k' = k then (k', v) :: rest else (k', v') :: Json.setKey rest k v

/-- Escape a character for a JSON string literal (quote and backslash; enough
for the serialisations the claims compare). -/
def escapeChar (c : Char) : List Char :=
  if c = '"' ∨ c = '\\' then ['\\', c] else [c]

/-- Render a string as a JSON string literal. -/
def renderString (s : String) : String :=
  ⟨'"' :: (s.data.map escapeChar).flatten ++ ['"']⟩

/-- Render a JSON number. -/
def renderNum (q : Rat) : String :=
  if q.den = 1 then toString q.num else toString q

mutual

/-- Serialise a JSON value, modelling `serde_json::to_string` (which never
fails on a tree of these constructors). -/
def Json.render : Json → String
  | .null => "null"
  | .bool b => Bool.rec "false" "true" b
  | .num q => renderNum q
  | .str s => renderString s
  | .arr elems => "[" ++ Json.renderElems elems ++ "]"
  | .obj entries => "\x7b" ++ Json.renderEntries entries ++ "\x7d"

/-- Render the comma-separated elements of a JSON array. -/
def Json.renderElems : List Json → String
  | [] => ""
  | [x] => Json.render x
  | x :: rest => Json.render x ++ "," ++ Json.renderElems rest

/-- Render the comma-separated entries of a JSON object. -/
def Json.renderEntries : List (String × Json) → String
  | [] => ""
  | [(k, v)] => renderString k ++ ":" ++ Json.render v
  | (k, v) :: rest => renderString k ++ ":" ++ Json.render v ++ "," ++ Json.renderEntries rest

end

/-- Is the value a JSON object?  Models `Value::as_object(...).is_some()`. -/
def Json.isObj : Json → Bool
  | .obj _ => true
  | _ => false

/-- Match operators for event-based targeting (`MatchOperator` in
`config.rs`); serialised names are camelCase. -/
inductive MatchOperator where
  | eq : MatchOperator
  | exists_ : MatchOperator
  | startsWith : MatchOperator
  | regex : MatchOperator
deriving Repr, DecidableEq

/-- Condition for event-based targeting (`MatchCondition` in `config.rs`). -/
structure MatchCondition where
  path : String
  value : Option String
  operator : Option MatchOperator
deriving Repr, DecidableEq

/-- A single feature flag's value (`FlagValue` in `config.rs`).  `u32`/`u16`
fields become `Nat` (deserialisation enforces the machine bounds), `f64`
fields become `Rat`. -/
structure FlagValue where
  enabled : Bool
  percentage : Option Nat
  min_latency : Option Rat
  max_latency : Option Rat
  exception_msg : Option String
  status_code : Option Nat
  disk_space : Option Nat
  deny_list : Option (List String)
  timeout_buffer_ms : Option Rat
  body : Option String
  match_conditions : Option (List MatchCondition)
deriving Repr, DecidableEq

/-- The full config (`FailureFlagsConfig = HashMap<String, FlagValue>`),
modelled as an association list with unique keys. -/
abbrev FailureFlagsConfig := List (String × FlagValue)

/-- A failure resolved and ready to inject (`ResolvedFailure` in
`config.rs`). -/
structure ResolvedFailure where
  mode : String
  percentage : Nat
  flag : FlagValue
deriving Repr, DecidableEq

/-- The supported failure injection modes, in execution order
(`FAILURE_MODE_ORDER` in `config.rs`). -/
def FAILURE_MODE_ORDER : List String :=
  ["latency", "timeout", "diskspace", "denylist", "statuscode", "exception", "corruption"]

/-- Resolve enabled flags into an ordered array of failures to inject
(`resolve_failures` in `config.rs`): iterate the canonical order, keep the
enabled entries, and compute `flag.percentage.unwrap_or(100).min(100)`. -/
def resolve_failures (config : FailureFlagsConfig) : List ResolvedFailure :=
  FAILURE_MODE_ORDER.filterMap (fun mode =>
    match List.lookup mode config with
    | some flag =>
      if flag.enabled then
        some ⟨mode, min (flag.percentage.getD 100) 100, flag⟩
      else
        none
    | none => none)

/-! ## Serde deserialisation of `FlagValue`

`parse_flags` calls `serde_json::from_value::<FlagValue>`; the following
functions model the derived deserialiser field by field (missing `Option`
fields and JSON `null` become `none`; a type mismatch fails the whole
deserialisation, which makes `parse_flags` drop the mode). -/

/-- Deserialise a `u32` (used for `percentage` and `disk_space`): the JSON
number must be a non-negative integer below `2^32`. -/
def deserU32 : Json → Option Nat
  | .num q => if q.den = 1 ∧ 0 ≤ q.num ∧ q.num < 4294967296 then some q.num.toNat else none
  | _ => none

/-- Deserialise a `u16` (used for `status_code`). -/
def deserU16 : Json → Option Nat
  | .num q => if q.den = 1 ∧ 0 ≤ q.num ∧ q.num < 65536 then some q.num.toNat else none
  | _ => none

/-- Deserialise an `f64`: any JSON number converts. -/
def deserF64 : Json → Option Rat
  | .num q => some q
  | _ => none

/-- Deserialise a `String`. -/
def deserString : Json → Option String
  | .str s => some s
  | _ => none

/-- Deserialise a `Vec<String>`. -/
def deserStringList : Json → Option (List String)
  | .arr elems => elems.mapM deserString
  | _ => none

/-- Deserialise a `MatchOperator` (serde camelCase names). -/
def deserMatchOperator : Json → Option MatchOperator
  | .str "eq" => some .eq
  | .str "exists" => some .exists_
  | .str "startsWith" => some .startsWith
  | .str "regex" => some .regex
  | _ => none

/-- Deserialise an optional struct field of element type `α`: a missing key or
JSON `null` is `none`; anything else must deserialise. -/
def deserOptField (entries : List (String × Json)) (key : String)
    (f : Json → Option α) : Option (Option α) :=
  match Json.lookupKey entries key with
  | none => some none
  | some .null => some none
  | some j => (f j).map some

/-- Deserialise the `enabled` field: `#[serde(default)] bool`, so a missing
key defaults to `false` and a present value must be a JSON boolean. -/
def deserEnabled (entries : List (String × Json)) : Option Bool :=
  match Json.lookupKey entries "enabled" with
  | none => some false
  | some (.bool b) => some b
  | some _ => none

/-- Deserialise a `MatchCondition`: `path` is a required string, `value` and
`operator` are optional. -/
def deserMatchCondition : Json → Option MatchCondition
  | .obj entries => do
    let path ← match Json.lookupKey entries "path" with
      | some (.str s) => some s
      | _ => none
    let value ← deserOptField entries "value" deserString
    let operator ← deserOptField entries "operator" deserMatchOperator
    pure ⟨path, value, operator⟩
  | _ => none

/-- Deserialise a `Vec<MatchCondition>`. -/
def deserMatchConditions : Json → Option (List MatchCondition)
  | .arr elems => elems.mapM deserMatchCondition
  | _ => none

/-- Deserialise a whole `FlagValue` from the entries of a JSON object
(`serde_json::from_value::<FlagValue>`); `match_conditions` is renamed to the
JSON key `match`, unknown keys are ignored. -/
def deserFlagValue (entries : List (String × Json)) : Option FlagValue := do
  let enabled ← deserEnabled entries
  let percentage ← deserOptField entries "percentage" deserU32
  let min_latency ← deserOptField entries "min_latency" deserF64
  let max_latency ← deserOptField entries "max_latency" deserF64
  let exception_msg ← deserOptField entries "exception_msg" deserString
  let status_code ← deserOptField entries "status_code" deserU16
  let disk_space ← deserOptField entries "disk_space" deserU32
  let deny_list ← deserOptField entries "deny_list" deserStringList
  let timeout_buffer_ms ← deserOptField entries "timeout_buffer_ms" deserF64
  let body ← deserOptField entries "body" deserString
  let match_conditions ← deserOptField entries "match" deserMatchConditions
  pure ⟨enabled, percentage, min_latency, max_latency, exception_msg, status_code,
        disk_space, deny_list, timeout_buffer_ms, body, match_conditions⟩

/-- A field validation error (`ValidationError` in `config.rs`). -/
structure ValidationError where
  field : String
  message : String
deriving Repr, DecidableEq

/-- Field validation of a deserialised flag against its raw JSON object
(`validate_flag_value` in `config.rs`).  `regexOk` abstracts
`regex::Regex::new(pattern).is_ok()`. -/
def validate_flag_value (regexOk : String → Bool) (mode : String)
    (flag : FlagValue) (raw : List (String × Json)) : List ValidationError :=
  let enabledErrors :=
    match Json.lookupKey raw "enabled" with
    | some (.bool _) => []
    | _ => [ValidationError.mk (mode ++ ".enabled") "must be a boolean"]
  let percentageErrors :=
    match flag.percentage with
    | some pct =>
      if pct > 100 then
        [ValidationError.mk (mode ++ ".percentage") "must be an integer between 0 and 100"]
      else []
    | none => []
  let modeErrors :=
    if mode = "latency" then
      (match flag.min_latency with
       | some minL =>
         if minL < 0 then
           [ValidationError.mk (mode ++ ".min_latency") "must be a non-negative number"]
         else []
       | none => []) ++
      (match flag.max_latency with
       | some maxL =>
         if maxL < 0 then
           [ValidationError.mk (mode ++ ".max_latency") "must be a non-negative number"]
         else []
       | none => []) ++
      (match flag.min_latency, flag.max_latency with
       | some minL, some maxL =>
         if minL > maxL then
           [ValidationError.mk (mode ++ ".max_latency") "max_latency must be >= min_latency"]
         else []
       | _, _ => [])
    else if mode = "exception" then
      match Json.lookupKey raw "exception_msg" with
      | some j =>
        match j with
        | .str _ => []
        | .null => []
        | _ => [ValidationError.mk (mode ++ ".exception_msg") "must be a string"]
      | none => []
    else if mode = "statuscode" then
      match flag.status_code with
      | some code =>
        if 100 ≤ code ∧ code ≤ 599 then []
        else [ValidationError.mk (mode ++ ".status_code") "must be an HTTP status code (100-599)"]
      | none => []
    else if mode = "diskspace" then
      match flag.disk_space with
      | some space =>
        if space = 0 ∨ space > 10240 then
          [ValidationError.mk (mode ++ ".disk_space") "must be between 1 and 10240 (MB)"]
        else []
      | none => []
    else if mode = "denylist" then
      match flag.deny_list with
      | some patterns =>
        (patterns.enum.filterMap (fun p =>
          if regexOk p.2 then none
          else some (ValidationError.mk
            (mode ++ ".deny_list[" ++ toString p.1 ++ "]") "invalid regular expression")))
      | none => []
    else if mode = "timeout" then
      match flag.timeout_buffer_ms with
      | some buffer =>
        if buffer < 0 then
          [ValidationError.mk (mode ++ ".timeout_buffer_ms") "must be a non-negative number"]
        else []
      | none => []
    else if mode = "corruption" then
      match Json.lookupKey raw "body" with
      | some j =>
        match j with
        | .str _ => []
        | .null => []
        | _ => [ValidationError.mk (mode ++ ".body") "must be a string"]
      | none => []
    else []
  let matchErrors :=
    match flag.match_conditions with
    | some conditions =>
      (conditions.enum.map (fun ci =>
        let cond := ci.2
        let i := toString ci.1
        let pathErr :=
          if cond.path = "" then
            [ValidationError.mk (mode ++ ".match[" ++ i ++ "].path") "must be a non-empty string"]
          else []
        let op := cond.operator.getD .eq
        -- the operator-name membership check in the source can never fail:
        -- every `MatchOperator` constructor maps to a name in the valid set
        let valueErr :=
          if op ≠ .exists_ ∧ cond.value = none then
            [ValidationError.mk (mode ++ ".match[" ++ i ++ "].value")
              "must be a string (required for all operators except 'exists')"]
          else []
        let regexErr :=
          if op = .regex then
            match cond.value with
            | some v =>
              if regexOk v then []
              else [ValidationError.mk (mode ++ ".match[" ++ i ++ "].value")
                "invalid regular expression"]
            | none => []
          else []
        pathErr ++ valueErr ++ regexErr)).flatten
    | none => []
  enabledErrors ++ percentageErrors ++ modeErrors ++ matchErrors

/-- Parse raw JSON into a flag config (`parse_flags` in `config.rs`): a
non-object root yields the empty map; unknown keys are dropped; a non-object
flag value, a failing deserialisation, or any validation error drops that
mode entirely. -/
def parse_flags (regexOk : String → Bool) (raw : Json) : FailureFlagsConfig :=
  match raw with
  | .obj entries =>
    entries.filterMap (fun kv =>
      if FAILURE_MODE_ORDER.contains kv.1 then
        match kv.2 with
        | .obj flagEntries =>
          match deserFlagValue flagEntries with
          | some flag =>
            if validate_flag_value regexOk kv.1 flag flagEntries = [] then
              some (kv.1, flag)
            else none
          | none => none
        | _ => none
      else none)
  | _ => []

/-! ## Match engine (`failures.rs`) -/

/-- Is the value JSON `null`?  Models `Value::is_null`. -/
def Json.isNull : Json → Bool
  | .null => true
  | _ => false

/-- Key access on a JSON value (`Value::get` with a string index): an object
looks the key up, anything else yields `None`. -/
def Json.get : Json → String → Option Json
  | .obj entries, k => Json.lookupKey entries k
  | _, _ => none

/-- Resolve a dot-separated path against a nested JSON value
(`get_nested_value` in `failures.rs`). -/
def get_nested_value (obj : Json) (path : String) : Option Json :=
  (path.splitOn ".").foldl (fun current part => current.bind (fun j => Json.get j part))
    (some obj)

/-- Stringify an actual JSON value for comparison (`json_value_to_string` in
`failures.rs`): strings are themselves, numbers and booleans their textual
form, composites their JSON text. -/
def json_value_to_string (v : Json) : String :=
  match v with
  | .str s => s
  | .num n => renderNum n
  | .bool b => if b then "true" else "false"
  | other => other.render

/-- Evaluate a single match operator against an actual JSON value
(`match_operator` in `failures.rs`).  `regexOk p` abstracts
`Regex::new(p).is_ok()` (the per-thread cache does not change semantics) and
`regexMatch p s` abstracts `re.is_match(s)`. -/
def match_operator (regexOk : String → Bool) (regexMatch : String → String → Bool)
    (actual : Option Json) (operator : MatchOperator) (value : Option String) : Bool :=
  match operator with
  | .exists_ =>
    match actual with
    | some v => !v.isNull
    | none => false
  | .startsWith =>
    match actual with
    | some v =>
      if v.isNull then false
      else (json_value_to_string v).startsWith (value.getD "")
    | none => false
  | .regex =>
    match actual with
    | some v =>
      if v.isNull then false
      else if regexOk (value.getD "") then regexMatch (value.getD "") (json_value_to_string v)
      else false
    | none => false
  | .eq =>
    match actual with
    | some v =>
      if v.isNull then false
      else json_value_to_string v = value.getD ""
    | none => false

/-- Check whether all match conditions are satisfied by the event
(`matches_conditions` in `failures.rs`): conjunction over the list, with the
operator defaulting to `eq`. -/
def matches_conditions (regexOk : String → Bool) (regexMatch : String → String → Bool)
    (event : Json) (conditions : List MatchCondition) : Bool :=
  conditions.all (fun condition =>
    match_operator regexOk regexMatch (get_nested_value event condition.path)
      (condition.operator.getD .eq) condition.value)

/-! ## Corruption (`failures.rs`) -/

/-- Byte indices of each character, modelling `str::char_indices` (UTF-8 byte
offsets). -/
def charIndicesAux (i : Nat) : List Char → List (Nat × Char)
  | [] => []
  | c :: cs => (i, c) :: charIndicesAux (i + c.utf8Size) cs

/-- Byte indices of a string's characters. -/
def charIndices (s : String) : List (Nat × Char) :=
  charIndicesAux 0 s.data

/-- UTF-8 byte length, modelling `str::len`. -/
def byteLen (s : String) : Nat :=
  (s.data.map Char.utf8Size).sum

/-- Truncate a non-empty string at a UTF-8 boundary near a random fraction of
its byte length and append three U+FFFD (`mangle_string` in `failures.rs`).
`frac` is the sampled `truncate_fraction` (drawn from `[0.3, 0.8)` by the
caller's RNG), passed explicitly. -/
def mangle_string (frac : Rat) (input : String) : String :=
  if input.data = [] then input
  else
    let truncate_point := (Rat.floor ((byteLen input : Rat) * frac)).toNat
    let safe_point :=
      (((charIndices input).takeWhile (fun ic => ic.1 ≤ truncate_point)).getLast?.map
        Prod.fst).getD 0
    let prefixChars :=
      ((charIndices input).takeWhile (fun ic => ic.1 < safe_point)).map Prod.snd
    ⟨prefixChars ++ ['�', '�', '�']⟩

/-- Corrupt a response body (`corrupt_response` in `failures.rs`).  `parsed`
is the result of `serde_json::from_str::<Value>(body)` (`none` when the body
is not valid JSON); `frac` is the RNG sample consumed by `mangle_string` in
the mangle branch.  With `flag.body` set the body is replaced; otherwise the
string `body` field, if any, is mangled. -/
def corrupt_response (frac : Rat) (flag : FlagValue) (body : String)
    (parsed : Option Json) : String :=
  match flag.body with
  | some replacement =>
    match parsed with
    | some json =>
      match json with
      | .obj entries =>
        if (Json.lookupKey entries "body").isSome then
          Json.render (.obj (Json.setKey entries "body" (.str replacement)))
        else
          Json.render (.obj [("body", .str replacement)])
      | _ => Json.render (.obj [("body", .str replacement)])
    | none => replacement
  | none =>
    match parsed with
    | some json =>
      match json with
      | .obj entries =>
        match Json.lookupKey entries "body" with
        | some (.str body_str) =>
          Json.render (.obj (Json.setKey entries "body" (.str (mangle_string frac body_str))))
        | _ => body
      | _ => body
    | none => body

/-! ## Invocation table (`proxy.rs`) -/

/-- Per-invocation state carried from `GET /next` to `POST /response|/error`
(`InvocationState` in `proxy.rs`). -/
structure InvocationState where
  failures : List ResolvedFailure
  event : Json
  denylist_active : Bool

/-- The invocation table (`HashMap<String, InvocationState>`), modelled as an
association list with unique keys. -/
abbrev InvocationTable := List (String × InvocationState)

/-- Remove a key from the table, returning the removed state if any
(`HashMap::remove`). -/
def hashmap_remove (t : InvocationTable) (request_id : String) :
    Option InvocationState × InvocationTable :=
  (List.lookup request_id t, t.filter (fun kv => kv.1 ≠ request_id))

/-- The finish-success handler's effect on the invocation table
(`handle_invocation_response`, `proxy.rs` lines 390-394): remove and take the
entry for the id; nothing is ever inserted. -/
def handle_invocation_response_table (t : InvocationTable) (request_id : String) :
    Option InvocationState × InvocationTable :=
  hashmap_remove t request_id

/-- The finish-error handler's effect on the invocation table
(`handle_invocation_error`, `proxy.rs` lines 473-479): remove the entry and
keep only its `denylist_active` bit (`map_or(false, ...)`). -/
def handle_invocation_error_table (t : InvocationTable) (request_id : String) :
    Bool × InvocationTable :=
  let r := hashmap_remove t request_id
  ((r.1.map (fun s => s.denylist_active)).getD false, r.2)

/-! ## Denylist file cleanup (`proxy.rs`)

The scratch-directory state the claims observe is whether the denylist file
exists, modelled as a `Bool`. -/

/-- Remove the denylist file; a no-op when absent (`remove_denylist`). -/
def remove_denylist (_file_present : Bool) : Bool :=
  false

/-- Remove the denylist file iff it was activated during this invocation
(`cleanup_denylist`, `proxy.rs` lines 555-559); called by both finish
handlers before forwarding upstream. -/
def cleanup_denylist (denylist_was_active : Bool) (file_present : Bool) : Bool :=
  if denylist_was_active then remove_denylist file_present else file_present

/-- The short-circuit cleanup branch (`handle_invocation_next`, `proxy.rs`
lines 351-358): before looping for the next event, remove the denylist file
if this consumed invocation activated it. -/
def short_circuit_cleanup (denylist_active : Bool) (file_present : Bool) : Bool :=
  if denylist_active then remove_denylist file_present else file_present

/-- The cross-invocation safety net at the top of `handle_invocation_next`
(`proxy.rs` lines 192-199): if any table entry has `denylist_active`, remove
the file; always clear the table. -/
def next_cleanup (t : InvocationTable) (file_present : Bool) :
    InvocationTable × Bool :=
  let had_denylist := t.any (fun kv => kv.2.denylist_active)
  ([], if had_denylist then remove_denylist file_present else file_present)

/-! ## Config fetch and cache (`config.rs`) -/

/-- The environment `ConfigManager::get_config` reads, gathered into one
record: which source is configured, the outcome of the (already
`parse_flags`-validated) fetch, and whether the cache TTL check
`!cache_ttl.is_zero() && cached.fetched_at.elapsed() < cache_ttl` passes. -/
structure ConfigFetchEnv where
  appconfig_configured : Bool
  ssm_configured : Bool
  fetch_result : Option FailureFlagsConfig
  cache_fresh : Bool

/-- Fetch config with caching (`ConfigManager::get_config`, `config.rs` lines
219-299): return the cached copy when fresh; otherwise fetch from the
configured source, falling back to the stale cache on a fetch error, to the
empty map when there is no source or no cache.  Returns the delivered config
and the new cache slot. -/
def get_config (env : ConfigFetchEnv) (cache : Option FailureFlagsConfig) :
    FailureFlagsConfig × Option FailureFlagsConfig :=
  match cache, env.cache_fresh with
  | some cached, true => (cached, some cached)
  | _, _ =>
    if env.appconfig_configured || env.ssm_configured then
      match env.fetch_result with
      | some config => (config, some config)
      | none =>
        match cache with
        | some cached => (cached, cache)
        | none => ([], cache)
    else ([], cache)

/-! ## Helper lemmas -/

/-- A successful association-list lookup means the key occurs among the keys. -/
theorem mem_keys_of_lookup_eq_some {α β : Type} [BEq α] [LawfulBEq α]
    {k : α} {v : β} : ∀ {l : List (α × β)}, List.lookup k l = some v →
    k ∈ l.map Prod.fst := by
  intro l
  induction l with
  | nil => intro h; simp [List.lookup] at h
  | cons kv rest ih =>
    intro h
    rw [List.lookup] at h
    by_cases hk : k == kv.1
    · simp at hk
      simp [hk]
    · simp [hk] at h
      simp [ih h]

/-- Mapping the `mode` projection over a `filterMap` that tags each kept
element with its source gives a sublist of the source list. -/
theorem filterMap_map_mode_sublist (f : String → Option ResolvedFailure)
    (hf : ∀ m r, f m = some r → r.mode = m) :
    ∀ l : List String, ((l.filterMap f).map ResolvedFailure.mode).Sublist l := by
  intro l
  induction l with
  | nil => simp
  | cons a rest ih =>
    rw [List.filterMap_cons]
    cases h : f a with
    | none => exact ih.cons a
    | some r =>
      rw [List.map_cons, hf a r h]
      exact ih.cons₂ a

/-! ## C3: resolve_failures order and content -/

/-- C3: for every flag config (whose keys are mode names, per the data
model), the resolved failure list keeps strictly the canonical order
`latency, timeout, diskspace, denylist, statuscode, exception, corruption`,
and contains exactly the modes whose flag has `enabled` set. -/
theorem resolve_failures_canonical (config : FailureFlagsConfig)
    (hkeys : ∀ k ∈ config.map Prod.fst, k ∈ FAILURE_MODE_ORDER) :
    ((resolve_failures config).map ResolvedFailure.mode).Sublist FAILURE_MODE_ORDER ∧
    ∀ m, m ∈ (resolve_failures config).map ResolvedFailure.mode ↔
      ∃ flag, List.lookup m config = some flag ∧ flag.enabled = true := by
  constructor
  · apply filterMap_map_mode_sublist
    intro m r h
    cases hl : List.lookup m config with
    | none => simp [hl] at h
    | some flag =>
      simp only [hl] at h
      by_cases he : flag.enabled
      · simp [he] at h
        exact (congrArg ResolvedFailure.mode h).symm
      · simp [he] at h
  · intro m
    constructor
    · intro hm
      obtain ⟨r, hr, hmode⟩ := List.mem_map.mp hm
      obtain ⟨m', _, hf⟩ := List.mem_filterMap.mp hr
      cases hl : List.lookup m' config with
      | none => simp [hl] at hf
      | some flag =>
        simp only [hl] at hf
        by_cases he : flag.enabled
        · simp [he] at hf
          have hm' : m' = m := by rw [← hmode, ← hf]
          exact ⟨flag, hm' ▸ hl, he⟩
        · simp [he] at hf
    · rintro ⟨flag, hl, he⟩
      have hord : m ∈ FAILURE_MODE_ORDER := hkeys m (mem_keys_of_lookup_eq_some hl)
      refine List.mem_map.mpr ⟨⟨m, min (flag.percentage.getD 100) 100, flag⟩, ?_, rfl⟩
      exact List.mem_filterMap.mpr ⟨m, hord, by simp [hl, he]⟩

/-- Witness for C3 at the configuration used by the source's own test
`test_resolve_failures_order`. -/
theorem resolve_failures_canonical_witness :
    (((resolve_failures
        [("exception", ⟨true, none, none, none, none, none, none, none, none, none, none⟩),
         ("latency", ⟨true, none, none, none, none, none, none, none, none, none, none⟩)]).map
      ResolvedFailure.mode).Sublist FAILURE_MODE_ORDER) ∧
    "latency" ∈ ((resolve_failures
        [("exception", ⟨true, none, none, none, none, none, none, none, none, none, none⟩),
         ("latency", ⟨true, none, none, none, none, none, none, none, none, none, none⟩)]).map
      ResolvedFailure.mode) := by
  have h := resolve_failures_canonical
    [("exception", ⟨true, none, none, none, none, none, none, none, none, none, none⟩),
     ("latency", ⟨true, none, none, none, none, none, none, none, none, none, none⟩)]
    (by decide)
  exact ⟨h.1, (h.2 "latency").mpr
    ⟨⟨true, none, none, none, none, none, none, none, none, none, none⟩, by decide, rfl⟩⟩

/-! ## C4: effective percentage bounds -/

/-- C4: every resolved failure's effective percentage is in `[0, 100]`
(`Nat`, so the lower bound is inherent); a missing `percentage` resolves to
`100`, and a stored percentage above `100` is clamped to `100`. -/
theorem resolve_failures_percentage (config : FailureFlagsConfig)
    (r : ResolvedFailure) (hr : r ∈ resolve_failures config) :
    r.percentage ≤ 100 ∧
    (r.flag.percentage = none → r.percentage = 100) ∧
    (∀ p, r.flag.percentage = some p → 100 < p → r.percentage = 100) := by
  obtain ⟨m, _, hf⟩ := List.mem_filterMap.mp hr
  cases hl : List.lookup m config with
  | none => simp [hl] at hf
  | some flag =>
    simp only [hl] at hf
    by_cases he : flag.enabled
    · simp [he] at hf
      subst hf
      refine ⟨Nat.min_le_right _ _, fun hnone => ?_, fun p hp h100 => ?_⟩
      · show min (flag.percentage.getD 100) 100 = 100
        have hn : flag.percentage = none := hnone
        rw [hn]; rfl
      · show min (flag.percentage.getD 100) 100 = 100
        have hq : flag.percentage = some p := hp
        rw [hq, Option.getD_some]
        omega
    · simp [he] at hf

/-- Witness for C4: a flag with `percentage` stored as `200` resolves with
effective percentage `100`. -/
theorem resolve_failures_percentage_witness :
    (⟨"latency", 100,
       ⟨true, some 200, none, none, none, none, none, none, none, none, none⟩⟩ :
      ResolvedFailure).percentage ≤ 100 ∧
    (⟨"latency", 100,
       ⟨true, some 200, none, none, none, none, none, none, none, none, none⟩⟩ :
      ResolvedFailure).percentage = 100 := by
  have h := resolve_failures_percentage
    [("latency", ⟨true, some 200, none, none, none, none, none, none, none, none, none⟩)]
    ⟨"latency", 100, ⟨true, some 200, none, none, none, none, none, none, none, none, none⟩⟩
    (by decide)
  exact ⟨h.1, h.2.2 200 rfl (by decide)⟩

/-! ## C5: match-condition algebra -/

/-- C5: the match engine is a conjunction: the empty condition list matches
every event, and matching a concatenation is the conjunction of matching the
parts. -/
theorem matches_conditions_append (regexOk : String → Bool)
    (regexMatch : String → String → Bool) (event : Json)
    (conds1 conds2 : List MatchCondition) :
    matches_conditions regexOk regexMatch event [] = true ∧
    matches_conditions regexOk regexMatch event (conds1 ++ conds2) =
      (matches_conditions regexOk regexMatch event conds1 &&
        matches_conditions regexOk regexMatch event conds2) := by
  refine ⟨rfl, ?_⟩
  simp [matches_conditions, List.all_append]

/-! ## C2: parse_flags totality and all-or-nothing validation -/

/-- C2: `parse_flags` is a total function (it is a Lean `def`, so it
terminates and never throws on any JSON input); a non-object root yields the
empty map; and every entry of the result comes from an object-valued known
mode whose deserialisation succeeded and whose field validation produced no
errors — a mode with any validation error is absent, never partially
accepted. -/
theorem parse_flags_validated (regexOk : String → Bool) (raw : Json) :
    (raw.isObj = false → parse_flags regexOk raw = []) ∧
    ∀ mode flag, (mode, flag) ∈ parse_flags regexOk raw →
      ∃ entries flagEntries, raw = Json.obj entries ∧
        (mode, Json.obj flagEntries) ∈ entries ∧
        mode ∈ FAILURE_MODE_ORDER ∧
        deserFlagValue flagEntries = some flag ∧
        validate_flag_value regexOk mode flag flagEntries = [] := by
  cases raw with
  | obj entries =>
    refine ⟨fun h => by simp [Json.isObj] at h, ?_⟩
    intro mode flag hmem
    rw [parse_flags] at hmem
    obtain ⟨kv, hkv, hf⟩ := List.mem_filterMap.mp hmem
    by_cases hknown : FAILURE_MODE_ORDER.contains kv.1
    · rw [if_pos hknown] at hf
      cases hv : kv.2 with
      | obj flagEntries =>
        rw [hv] at hf
        cases hd : deserFlagValue flagEntries with
        | none => simp [hd] at hf
        | some flag' =>
          simp only [hd] at hf
          by_cases hval : validate_flag_value regexOk kv.1 flag' flagEntries = []
          · rw [if_pos hval, Option.some_inj] at hf
            have hmode : kv.1 = mode := congrArg Prod.fst hf
            have hflag : flag' = flag := congrArg Prod.snd hf
            refine ⟨entries, flagEntries, rfl, ?_, ?_, ?_, ?_⟩
            · rw [← hmode, ← hv]
              exact hkv
            · rw [← hmode]
              rw [List.contains_iff_exists_mem_beq] at hknown
              obtain ⟨a, ha, hab⟩ := hknown
              rw [show kv.1 = a from by simpa using hab]
              exact ha
            · rw [← hflag]
              exact hd
            · rw [← hmode, ← hflag]
              exact hval
          · rw [if_neg hval] at hf
            exact absurd hf (by simp)
      | null => rw [hv] at hf; exact absurd hf (by simp)
      | bool b => rw [hv] at hf; exact absurd hf (by simp)
      | num q => rw [hv] at hf; exact absurd hf (by simp)
      | str s => rw [hv] at hf; exact absurd hf (by simp)
      | arr elems => rw [hv] at hf; exact absurd hf (by simp)
    · rw [if_neg hknown] at hf
      exact absurd hf (by simp)
  | null => exact ⟨fun _ => rfl, fun mode flag h => absurd h (List.not_mem_nil _)⟩
  | bool b => exact ⟨fun _ => rfl, fun mode flag h => absurd h (List.not_mem_nil _)⟩
  | num q => exact ⟨fun _ => rfl, fun mode flag h => absurd h (List.not_mem_nil _)⟩
  | str s => exact ⟨fun _ => rfl, fun mode flag h => absurd h (List.not_mem_nil _)⟩
  | arr elems => exact ⟨fun _ => rfl, fun mode flag h => absurd h (List.not_mem_nil _)⟩

/-- Witness for C2: a non-object configuration parses to the empty map. -/
theorem parse_flags_validated_witness :
    parse_flags (fun _ => true) (Json.str "not an object") = [] :=
  (parse_flags_validated (fun _ => true) (Json.str "not an object")).1 rfl

/-- Setting a present key makes lookup return the new value. -/
theorem lookupKey_setKey_same (entries : List (String × Json)) (k : String) (v w : Json)
    (h : Json.lookupKey entries k = some v) :
    Json.lookupKey (Json.setKey entries k w) k = some w := by
  induction entries with
  | nil => simp [Json.lookupKey, List.lookup] at h
  | cons kv rest ih =>
    by_cases hk : kv.1 = k
    · simp [Json.setKey, Json.lookupKey, List.lookup, hk]
    · rw [Json.lookupKey, List.lookup] at h
      have hne : (k == kv.1) = false := by simp [Ne.symm hk]
      rw [hne] at h
      simpa [Json.setKey, Json.lookupKey, List.lookup, hk, hne] using ih h

/-- Setting one key leaves lookup at every other key unchanged. -/
theorem lookupKey_setKey_ne (entries : List (String × Json)) (k k' : String) (w : Json)
    (h : k' ≠ k) :
    Json.lookupKey (Json.setKey entries k w) k' = Json.lookupKey entries k' := by
  induction entries with
  | nil => rfl
  | cons kv rest ih =>
    by_cases hk : kv.1 = k
    · have hne : (k' == kv.1) = false := by simp [hk, h]
      have hne2 : (k' == k) = false := by simp [h]
      simp [Json.setKey, Json.lookupKey, List.lookup, hk, hne, hne2]
    · by_cases hk' : k' = kv.1
      · simp [Json.setKey, Json.lookupKey, List.lookup, hk, hk']
      · have hne : (k' == kv.1) = false := by simp [hk']
        simpa [Json.setKey, Json.lookupKey, List.lookup, hk, hne] using ih

/-! ## C1: corrupt_response in replace mode -/

/-- A concrete corruption flag in replace mode, used by witnesses. -/
def sampleReplaceFlag : FlagValue :=
  ⟨true, none, none, none, none, none, none, none, none, some "chaos", none⟩

/-- C1 counterexample: the claim says every body that does not parse as a
JSON object gets the replacement verbatim, but `"42"` parses as the JSON
number `42` — not an object — and the code takes the wrap branch, returning
`{"body":"chaos"}` rather than `chaos`. -/
theorem corrupt_response_nonobject_wraps :
    corrupt_response 0 sampleReplaceFlag "42" (some (Json.num 42)) ≠ "chaos" ∧
    corrupt_response 0 sampleReplaceFlag "42" (some (Json.num 42)) =
      "\x7b\"body\":\"chaos\"\x7d" := by
  constructor
  · decide
  · decide

/-- C1 (amended): with `flag.body` set, `corrupt_response` replaces the
`body` field when the body parses as a JSON object containing a `body` key,
wraps the replacement as `{"body": replacement}` when the body parses as any
other JSON value (an object without a `body` key, or a non-object), and
returns the replacement verbatim exactly when the body does not parse as
JSON at all. -/
theorem corrupt_response_replace (frac : Rat) (flag : FlagValue) (r body : String)
    (parsed : Option Json) (hr : flag.body = some r) :
    (∀ entries, parsed = some (Json.obj entries) →
      (Json.lookupKey entries "body").isSome = true →
      corrupt_response frac flag body parsed =
        Json.render (Json.obj (Json.setKey entries "body" (Json.str r)))) ∧
    (∀ entries, parsed = some (Json.obj entries) →
      Json.lookupKey entries "body" = none →
      corrupt_response frac flag body parsed =
        Json.render (Json.obj [("body", Json.str r)])) ∧
    (∀ j, parsed = some j → j.isObj = false →
      corrupt_response frac flag body parsed =
        Json.render (Json.obj [("body", Json.str r)])) ∧
    (parsed = none → corrupt_response frac flag body parsed = r) := by
  refine ⟨?_, ?_, ?_, ?_⟩
  · intro entries hp hb
    subst hp
    simp [corrupt_response, hr, hb]
  · intro entries hp hb
    subst hp
    simp [corrupt_response, hr, hb]
  · intro j hp hobj
    subst hp
    cases j with
    | obj entries => simp [Json.isObj] at hobj
    | null => simp [corrupt_response, hr]
    | bool b => simp [corrupt_response, hr]
    | num q => simp [corrupt_response, hr]
    | str s => simp [corrupt_response, hr]
    | arr elems => simp [corrupt_response, hr]
  · intro hp
    subst hp
    simp [corrupt_response, hr]

/-- Witness for C1 (amended): a body that is not valid JSON comes back as
the replacement verbatim. -/
theorem corrupt_response_replace_witness :
    corrupt_response 0 sampleReplaceFlag "not json" none = "chaos" :=
  (corrupt_response_replace 0 sampleReplaceFlag "chaos" "not json" none rfl).2.2.2 rfl

/-! ## C9: replace mode only touches the body field -/

/-- C9: in replace mode, on a JSON object that contains a `body` key,
`corrupt_response` returns the serialisation of an object in which `body`
maps to the replacement and every other key maps to its original value. -/
theorem corrupt_response_frame (frac : Rat) (flag : FlagValue) (r body : String)
    (entries : List (String × Json)) (v : Json)
    (hr : flag.body = some r)
    (hbody : Json.lookupKey entries "body" = some v) :
    ∃ entries', corrupt_response frac flag body (some (Json.obj entries)) =
        Json.render (Json.obj entries') ∧
      Json.lookupKey entries' "body" = some (Json.str r) ∧
      ∀ k, k ≠ "body" → Json.lookupKey entries' k = Json.lookupKey entries k := by
  refine ⟨Json.setKey entries "body" (Json.str r), ?_, ?_, ?_⟩
  · simp [corrupt_response, hr, hbody]
  · exact lookupKey_setKey_same entries "body" v (Json.str r) hbody
  · exact fun k hk => lookupKey_setKey_ne entries "body" k (Json.str r) hk

/-- Witness for C9 at a concrete two-field response object. -/
theorem corrupt_response_frame_witness :
    ∃ entries', corrupt_response 0 sampleReplaceFlag "ignored"
        (some (Json.obj [("statusCode", Json.num 200), ("body", Json.str "orig")])) =
        Json.render (Json.obj entries') ∧
      Json.lookupKey entries' "body" = some (Json.str "chaos") ∧
      ∀ k, k ≠ "body" → Json.lookupKey entries' k =
        Json.lookupKey [("statusCode", Json.num 200), ("body", Json.str "orig")] k :=
  corrupt_response_frame 0 sampleReplaceFlag "chaos" "ignored"
    [("statusCode", Json.num 200), ("body", Json.str "orig")] (Json.str "orig") rfl rfl

/-! ## C10: mangle_string on empty and non-empty input -/

/-- Number of U+FFFD replacement characters at the end of a string. -/
def trailingReplacementCount (s : String) : Nat :=
  (s.data.reverse.takeWhile (fun c => c == '�')).length

/-- Dropping the byte indices of `charIndices` recovers the characters. -/
theorem charIndicesAux_map_snd (l : List Char) :
    ∀ i, (charIndicesAux i l).map Prod.snd = l := by
  induction l with
  | nil => intro i; rfl
  | cons c cs ih => intro i; simp [charIndicesAux, ih]

/-- Dropping the byte indices of `charIndices` recovers the string's data. -/
theorem charIndices_map_snd (s : String) : (charIndices s).map Prod.snd = s.data :=
  charIndicesAux_map_snd s.data 0

/-- A `takeWhile` image under `map` is a `take` of the mapped list. -/
theorem takeWhile_map_eq_take {α β : Type} (f : α → β) (q : α → Bool) (l : List α) :
    (l.takeWhile q).map f = (l.map f).take (l.takeWhile q).length := by
  induction l with
  | nil => rfl
  | cons a rest ih =>
    cases hq : q a with
    | true => simp [List.takeWhile_cons, hq, ih]
    | false => simp [List.takeWhile_cons, hq]

/-- The kept characters of any `takeWhile` over `charIndices` form a `take`
of the input's characters. -/
theorem exists_mk_take_append (q : Nat × Char → Bool) (s : String) (t : List Char) :
    ∃ n, (⟨((charIndices s).takeWhile q).map Prod.snd ++ t⟩ : String) =
      ⟨s.data.take n ++ t⟩ := by
  refine ⟨((charIndices s).takeWhile q).length, ?_⟩
  rw [takeWhile_map_eq_take, charIndices_map_snd]

/-- Three appended replacement characters stay at the end. -/
theorem trailing_ge_three (l : List Char) :
    3 ≤ trailingReplacementCount ⟨l ++ ['�', '�', '�']⟩ := by
  show 3 ≤ ((l ++ ['�', '�', '�']).reverse.takeWhile (fun c => c == '�')).length
  rw [List.reverse_append]
  simp [List.takeWhile_cons]

/-- C10 counterexample: the claim says every non-empty input's mangled result
ends in exactly three U+FFFD, but the input consisting of two U+FFFD
characters, with the RNG fraction `1/2` (inside the sampled range
`[0.3, 0.8)`), keeps one U+FFFD of the original and therefore ends in four. -/
theorem mangle_string_exactly_three_counterexample :
    ("��" : String) ≠ "" ∧
    trailingReplacementCount (mangle_string (1/2) "��") ≠ 3 ∧
    trailingReplacementCount (mangle_string (1/2) "��") = 4 := by
  have h3 : (Rat.floor ((byteLen "��" : Rat) * (1 / 2))).toNat = 3 := by
    have hb : byteLen "��" = 6 := by decide
    rw [hb]
    have h : ((6 : Nat) : Rat) * (1 / 2) = 3 := by norm_num
    rw [h]
    decide
  have hval : mangle_string (1/2) "��" = ⟨['�', '�', '�', '�']⟩ := by
    simp only [mangle_string]
    rw [if_neg (by decide), h3]
    decide
  rw [hval]
  refine ⟨by decide, by decide, by decide⟩

/-- C10 (amended): mangling the empty string returns the empty string and
appends no replacement characters, while every non-empty input yields a
(byte-truncated) prefix of the input followed by three appended U+FFFD — so
the result ends in at least three U+FFFD, and in exactly three only when the
kept prefix does not itself end in U+FFFD. -/
theorem mangle_string_spec (frac : Rat) (input : String) :
    (input = "" → mangle_string frac input = "" ∧
      trailingReplacementCount (mangle_string frac input) = 0) ∧
    (input ≠ "" →
      (∃ n, mangle_string frac input = ⟨input.data.take n ++ ['�', '�', '�']⟩) ∧
      3 ≤ trailingReplacementCount (mangle_string frac input)) := by
  constructor
  · rintro rfl
    exact ⟨rfl, rfl⟩
  · intro h
    have hdata : input.data ≠ [] := by
      intro hd
      exact h (String.ext hd)
    have hm : ∃ n, mangle_string frac input = ⟨input.data.take n ++ ['�', '�', '�']⟩ := by
      rw [mangle_string, if_neg hdata]
      exact exists_mk_take_append _ input _
    refine ⟨hm, ?_⟩
    obtain ⟨n, hn⟩ := hm
    rw [hn]
    exact trailing_ge_three _

/-- Witness for C10 (amended) at the empty string and at `"ab"`. -/
theorem mangle_string_spec_witness :
    mangle_string 0 "" = "" ∧
    ∃ n, mangle_string (1/2) "ab" = ⟨("ab" : String).data.take n ++ ['�', '�', '�']⟩ :=
  ⟨((mangle_string_spec 0 "").1 rfl).1,
   ((mangle_string_spec (1/2) "ab").2 (by decide)).1⟩

/-! ## C6: finish handlers clear the invocation table entry -/

/-- After removing a key, lookup of that key fails. -/
theorem lookup_filter_ne_none (t : InvocationTable) (id : String) :
    List.lookup id (t.filter (fun kv => kv.1 ≠ id)) = none := by
  induction t with
  | nil => rfl
  | cons kv rest ih =>
    by_cases hk : kv.1 = id
    · simpa [List.filter, hk] using ih
    · have hne : (id == kv.1) = false := by simp [Ne.symm hk]
      simpa [List.filter, hk, List.lookup, hne] using ih

/-- C6: after the finish-success or finish-error handler runs, the
invocation table holds no entry under the request id, and neither handler
ever inserts an entry (the resulting table is a subset of the original).
In the source both handlers perform the removal before forwarding the body
upstream. -/
theorem invocation_table_cleared (t : InvocationTable) (request_id : String) :
    List.lookup request_id (handle_invocation_response_table t request_id).2 = none ∧
    List.lookup request_id (handle_invocation_error_table t request_id).2 = none ∧
    (∀ kv, kv ∈ (handle_invocation_response_table t request_id).2 → kv ∈ t) ∧
    (∀ kv, kv ∈ (handle_invocation_error_table t request_id).2 → kv ∈ t) :=
  ⟨lookup_filter_ne_none t request_id,
   lookup_filter_ne_none t request_id,
   fun _ h => List.mem_of_mem_filter h,
   fun _ h => List.mem_of_mem_filter h⟩

/-! ## C7: denylist file removed before the next event -/

/-- C7: every way an invocation can end with `denylist_active` removes the
denylist file before the next event reaches the runtime: the finish handlers
call `cleanup_denylist` with the stored bit, the short-circuit branch removes
the file before looping for the next event, and the begin-invocation safety
net removes it (and empties the table) whenever any stored entry still holds
`denylist_active`. -/
theorem denylist_removed_on_completion (file_present : Bool) (t : InvocationTable) :
    cleanup_denylist true file_present = false ∧
    short_circuit_cleanup true file_present = false ∧
    (t.any (fun kv => kv.2.denylist_active) = true →
      (next_cleanup t file_present).2 = false) ∧
    (next_cleanup t file_present).1 = [] := by
  refine ⟨rfl, rfl, ?_, rfl⟩
  intro h
  simp [next_cleanup, h, remove_denylist]

/-- Witness for C7 with the file present and a table whose single entry has
`denylist_active`. -/
theorem denylist_removed_on_completion_witness :
    cleanup_denylist true true = false ∧
    (next_cleanup [("req-1", ⟨[], Json.null, true⟩)] true).2 = false :=
  ⟨(denylist_removed_on_completion true []).1,
   (denylist_removed_on_completion true [("req-1", ⟨[], Json.null, true⟩)]).2.2.1 rfl⟩

/-! ## C8: get_config never fails visibly -/

/-- C8: `get_config` is total by construction and degrades instead of
failing: with no source configured and no cache it returns the empty map;
when a configured source's fetch errors it returns the cached config
whenever one exists — even an expired one — and the empty map otherwise. -/
theorem get_config_fallback (env : ConfigFetchEnv) (cache : Option FailureFlagsConfig) :
    (env.appconfig_configured = false → env.ssm_configured = false → cache = none →
      (get_config env cache).1 = []) ∧
    (∀ c, cache = some c →
      (env.appconfig_configured = true ∨ env.ssm_configured = true) →
      env.fetch_result = none → (get_config env cache).1 = c) ∧
    (cache = none → env.fetch_result = none → (get_config env cache).1 = []) := by
  obtain ⟨ac, sc, fr, cf⟩ := env
  refine ⟨?_, ?_, ?_⟩
  · rintro h1 h2 rfl
    subst h1; subst h2
    cases cf <;> rfl
  · rintro c rfl hsrc hfr
    simp only at hsrc hfr
    subst hfr
    cases cf with
    | true => rfl
    | false =>
      rcases hsrc with h | h <;> subst h <;> simp [get_config]
  · rintro rfl hfr
    simp only at hfr
    subst hfr
    cases cf <;> cases ac <;> cases sc <;> rfl

/-- Witness for C8: empty when nothing is configured, and the stale cache on
a failed fetch. -/
theorem get_config_fallback_witness :
    (get_config ⟨false, false, none, false⟩ none).1 = [] ∧
    (get_config ⟨true, false, none, false⟩ (some [("latency", sampleReplaceFlag)])).1 =
      [("latency", sampleReplaceFlag)] :=
  ⟨(get_config_fallback ⟨false, false, none, false⟩ none).1 rfl rfl rfl,
   (get_config_fallback ⟨true, false, none, false⟩
      (some [("latency", sampleReplaceFlag)])).2.1
     [("latency", sampleReplaceFlag)] rfl (Or.inl rfl) rfl⟩

end FailureLambda
